import Mathlib

set_option maxHeartbeats 1000000

/-!
Verification development for the `check_for_license` Reddit bot.

The definitions below are a shallow embedding of `src/util.rs` and
`src/bot.rs`: pure Rust functions become Lean functions, the asynchronous
HTTP calls become oracle functions supplied through environment records,
`Result` becomes `Except`, a `.unwrap()` on absent data becomes an explicit
`panicked` outcome, and the mutable `processed` vector becomes explicit
state passing.
-/

namespace CheckForLicense

/-! ### Embedding of `src/util.rs` (`extract_gh_info`)

Rust's `str::find` returns a *byte* index while `chars().skip(n)` skips
*characters*; the embedding keeps that distinction via `utf8Len`. -/

/-- Number of bytes of the UTF-8 encoding of a character. -/
def utf8Len (c : Char) : Nat :=
  if c.val < 0x80 then 1
  else if c.val < 0x800 then 2
  else if c.val < 0x10000 then 3
  else 4

/-- Boolean list-prefix test, as used to locate a pattern occurrence. -/
def listIsPrefixOf : List Char → List Char → Bool
  | [], _ => true
  | _ :: _, [] => false
  | a :: ta, b :: tb => (a == b) && listIsPrefixOf ta tb

/-- Byte index of the first occurrence of `pat` in the haystack, matching
Rust's `str::find` on valid UTF-8 input. -/
def findByte (pat : List Char) : List Char → Option Nat
  | [] => if pat.isEmpty then some 0 else none
  | c :: rest =>
    if listIsPrefixOf pat (c :: rest) then some 0
    else (findByte pat rest).map (fun n => utf8Len c + n)

/-- Rust's `str::contains` for a string pattern. -/
def containsSub (hay pat : List Char) : Bool := (findByte pat hay).isSome

/-- Rust's `str::split('/')`: always yields at least one (possibly empty)
segment, with empty segments kept. -/
def splitOnSlash : List Char → List (List Char)
  | [] => [[]]
  | c :: rest =>
    if c = '/' then [] :: splitOnSlash rest
    else
      match splitOnSlash rest with
      | s :: ss => (c :: s) :: ss
      | [] => [[c]]

/-- The marker searched for by `extract_gh_info` (byte length 11). -/
def ghMarker : List Char := "github.com/".toList

/-- The substring used by the watcher's hosting-domain filter. -/
def ghFilter : List Char := "github.com".toList

/-- The self-post marker tested with `starts_with` in the watcher. -/
def selfMarker : List Char := "self.".toList

/-- Embedding of `extract_gh_info` from `src/util.rs`: find the marker
(byte index), skip `index + 11` characters, split the remainder on `'/'`
and take the first two segments. -/
def extract_gh_info (url : String) : Option (String × String) :=
  match findByte ghMarker url.toList with
  | none => none
  | some i =>
    let rest := url.toList.drop (i + 11)
    match splitOnSlash rest with
    | org :: repo :: _ => some (String.mk org, String.mk repo)
    | _ => none

/-! ### Facts about the URL extractor -/

theorem listIsPrefixOf_iff (p : List Char) :
    ∀ l : List Char, listIsPrefixOf p l = true ↔ ∃ t, l = p ++ t := by
  induction p with
  | nil =>
    intro l
    simp [listIsPrefixOf]
  | cons a ta ih =>
    intro l
    cases l with
    | nil =>
      simp [listIsPrefixOf]
    | cons b tb =>
      simp only [listIsPrefixOf, Bool.and_eq_true, beq_iff_eq, ih tb]
      constructor
      · rintro ⟨hab, t, ht⟩
        exact ⟨t, by simp [hab, ht]⟩
      · rintro ⟨t, ht⟩
        simp only [List.cons_append, List.cons.injEq] at ht
        exact ⟨ht.1.symm, t, ht.2⟩

theorem findByte_some_decomp (pat : List Char) :
    ∀ (l : List Char) (i : Nat), findByte pat l = some i →
      ∃ pre suf, l = pre ++ pat ++ suf := by
  intro l
  induction l with
  | nil =>
    intro i h
    simp only [findByte] at h
    by_cases hp : pat.isEmpty
    · refine ⟨[], [], ?_⟩
      simp [List.isEmpty_iff.mp hp]
    · simp [hp] at h
  | cons c rest ih =>
    intro i h
    simp only [findByte] at h
    by_cases hpre : listIsPrefixOf pat (c :: rest) = true
    · obtain ⟨t, ht⟩ := (listIsPrefixOf_iff pat (c :: rest)).mp hpre
      exact ⟨[], t, by simp [ht]⟩
    · simp only [hpre, if_false] at h
      cases hfb : findByte pat rest with
      | none => simp [hfb] at h
      | some n =>
        obtain ⟨pre, suf, hdec⟩ := ih n hfb
        exact ⟨c :: pre, suf, by simp [hdec]⟩

theorem findByte_nil (l : List Char) : findByte [] l = some 0 := by
  cases l <;> simp [findByte, listIsPrefixOf]

theorem findByte_append_isSome (pat pre suf : List Char) :
    (findByte pat (pre ++ pat ++ suf)).isSome := by
  induction pre with
  | nil =>
    cases pat with
    | nil => simp [findByte_nil]
    | cons p tp =>
      have hpre : listIsPrefixOf (p :: tp) (p :: (tp ++ suf)) = true := by
        rw [listIsPrefixOf_iff]
        exact ⟨suf, by simp⟩
      simp [findByte, hpre]
  | cons c pre ih =>
    show (findByte pat (c :: (pre ++ pat ++ suf))).isSome = true
    rw [List.append_assoc] at ih ⊢
    simp only [findByte]
    by_cases hpre : listIsPrefixOf pat (c :: (pre ++ (pat ++ suf))) = true
    · simp [hpre]
    · simp only [hpre, if_false]
      cases hfb : findByte pat (pre ++ (pat ++ suf)) with
      | none => rw [hfb] at ih; simp at ih
      | some n => simp [hfb]

/-- Head of the slash-split is the longest slash-free leading run. -/
theorem splitOnSlash_head :
    ∀ l : List Char, ∃ tl,
      splitOnSlash l = l.takeWhile (fun c => c != '/') :: tl := by
  intro l
  induction l with
  | nil => exact ⟨[], rfl⟩
  | cons c rest ih =>
    by_cases hc : c = '/'
    · subst hc
      refine ⟨splitOnSlash rest, ?_⟩
      simp [splitOnSlash, List.takeWhile]
    · obtain ⟨tl, htl⟩ := ih
      refine ⟨tl, ?_⟩
      simp only [splitOnSlash, if_neg hc, htl, List.takeWhile]
      have : (c != '/') = true := by
        simpa using hc
      simp [this]

/-- Full characterization of the slash-split used by the extractor. -/
theorem splitOnSlash_eq :
    ∀ l : List Char,
      splitOnSlash l = l.takeWhile (fun c => c != '/') ::
        (if '/' ∈ l then
          splitOnSlash ((l.dropWhile (fun c => c != '/')).drop 1)
        else []) := by
  intro l
  induction l with
  | nil => simp [splitOnSlash]
  | cons c rest ih =>
    by_cases hc : c = '/'
    · subst hc
      simp [splitOnSlash, List.takeWhile, List.dropWhile]
    · have hbne : (c != '/') = true := by simpa using hc
      have hmem : ('/' ∈ c :: rest) ↔ ('/' ∈ rest) := by
        simp [List.mem_cons, Ne.symm hc]
      simp only [splitOnSlash, if_neg hc, ih, List.takeWhile, hbne, hmem,
        List.dropWhile]

theorem splitOnSlash_two (l : List Char) :
    (match splitOnSlash l with
      | org :: repo :: _ => some (String.mk org, String.mk repo)
      | _ => none) =
    (if '/' ∈ l then
      some (String.mk (l.takeWhile (fun c => c != '/')),
        String.mk (((l.dropWhile (fun c => c != '/')).drop 1).takeWhile
          (fun c => c != '/')))
    else none) := by
  rw [splitOnSlash_eq l]
  by_cases hcont : '/' ∈ l
  · obtain ⟨tl, htl⟩ :=
      splitOnSlash_head ((l.dropWhile (fun c => c != '/')).drop 1)
    simp only [if_pos hcont]
    rw [htl]
  · simp only [if_neg hcont]

/-! ### Embedding of `src/bot.rs`

HTTP interactions are modelled by oracle functions returning
`Except Unit Nat` (transport failure, or a status code); JSON listing
bodies are modelled structurally with `Option` fields for the places the
code calls `.unwrap()` on. -/

/-- Rust `StatusCode::is_success` (2xx). -/
def isSuccess (s : Nat) : Bool := 200 ≤ s && s ≤ 299

/-- A GitHub API request issued by `check_post`. -/
inductive GhCall
  | repo (org name : String)
  | license (org name : String)
  deriving DecidableEq

/-- The error values produced by `check_post`. -/
inductive CheckError
  | parseUrl (url : String)
  | invalidProject (org name : String) (status : Nat)
  | transport
  deriving DecidableEq

/-- Errors produced while processing one iteration of the watch loop. -/
inductive BotError
  | checkFailed (e : CheckError)
  | replyFailed (status : Nat)
  | replyTransport
  | listingStatus (status : Nat)
  | listingTransport
  | listingParse
  deriving DecidableEq

/-- Responses of the GitHub API for the two endpoints used. -/
structure GhEnv where
  repoResp : String → String → Except Unit Nat
  licenseResp : String → String → Except Unit Nat

/-- Embedding of `Bot::check_post`: extract (org, repo) from the URL
(failure is an error), query the repository endpoint (non-success is an
error carrying the status), then the license endpoint (non-success means
the license is missing). The second component records the GitHub requests
actually issued, in order. -/
def check_post (env : GhEnv) (url : String) : Except CheckError Bool × List GhCall :=
  match extract_gh_info url with
  | none => (.error (.parseUrl url), [])
  | some (org, repo) =>
    match env.repoResp org repo with
    | .error _ => (.error .transport, [.repo org repo])
    | .ok s1 =>
      if !isSuccess s1 then
        (.error (.invalidProject org repo s1), [.repo org repo])
      else
        match env.licenseResp org repo with
        | .error _ => (.error .transport, [.repo org repo, .license org repo])
        | .ok s2 =>
          if !isSuccess s2 then (.ok true, [.repo org repo, .license org repo])
          else (.ok false, [.repo org repo, .license org repo])

/-- Embedding of `Bot::respond_to`: POST the fixed reply; non-success is an
error carrying the status. -/
def respond_to (replyResp : String → Except Unit Nat) (fullname : String) :
    Except BotError Unit :=
  match replyResp fullname with
  | .error _ => .error .replyTransport
  | .ok s => if !isSuccess s then .error (.replyFailed s) else .ok ()

/-- One entry of `data.children` as consumed by the watcher; a `none`
field models absence of the key (or a non-string value), on which the
Rust code calls `.unwrap()`. -/
structure RawPost where
  name : Option String
  domain : Option String
  url : Option String
  deriving DecidableEq

/-- The parsed listing body: `data.children` (`none` when not an array)
and `data.after`. -/
structure Listing where
  children : Option (List RawPost)
  after : Option String
  deriving DecidableEq

/-- Environment for one iteration of the watch loop: the listing fetch
outcome (transport error, or status plus body-parse outcome), the GitHub
oracles, the reply oracle, and whether the processed-file write succeeds. -/
structure IterEnv where
  fetch : Except Unit (Nat × Except Unit Listing)
  gh : GhEnv
  replyResp : String → Except Unit Nat
  flushOk : Bool

/-- Outcome of a computation that may return, error out, or panic on an
`.unwrap()` of absent data. -/
inductive RunOutcome (α : Type)
  | ok (a : α)
  | err (e : BotError)
  | panicked
  deriving DecidableEq

/-- State and observations accumulated by the per-post `for` loop of
`watch_subreddit_once`. -/
structure PostsOut where
  result : RunOutcome Unit
  processed : List String
  calls : List GhCall
  replies : List String
  deriving DecidableEq

/-- Embedding of the `for post_wrapper in postings` loop of
`watch_subreddit_once`: skip already-processed posts, mark the post
processed, skip self posts, and for URLs containing `"github.com"` run
`check_post` and, on a missing license, `respond_to`. An `Err` from
either propagates out of the loop (Rust `?`), abandoning the remaining
posts; `replies` records every reply attempt, failed ones included. -/
def processPosts (env : IterEnv) : List RawPost → List String → PostsOut
  | [], processed => ⟨.ok (), processed, [], []⟩
  | post :: rest, processed =>
    match post.name with
    | none => ⟨.panicked, processed, [], []⟩
    | some fullname =>
      if fullname ∈ processed then
        processPosts env rest processed
      else
        let processed1 := processed ++ [fullname]
        match post.domain with
        | none => ⟨.panicked, processed1, [], []⟩
        | some d =>
          if listIsPrefixOf selfMarker d.toList then
            processPosts env rest processed1
          else
            match post.url with
            | none => ⟨.panicked, processed1, [], []⟩
            | some u =>
              if containsSub u.toList ghFilter then
                match check_post env.gh u with
                | (.error e, calls) =>
                  ⟨.err (.checkFailed e), processed1, calls, []⟩
                | (.ok true, calls) =>
                  match respond_to env.replyResp fullname with
                  | .error e => ⟨.err e, processed1, calls, [fullname]⟩
                  | .ok _ =>
                    let r := processPosts env rest processed1
                    ⟨r.result, r.processed, calls ++ r.calls, fullname :: r.replies⟩
                | (.ok false, calls) =>
                  let r := processPosts env rest processed1
                  ⟨r.result, r.processed, calls ++ r.calls, r.replies⟩
              else
                processPosts env rest processed1

/-- Result of one `watch_subreddit_once` call: the returned value (new
cursor), the processed list after the call, and the observable effects
(delays, GitHub calls, reply attempts). -/
structure OnceOut where
  result : RunOutcome (Option String)
  processed : List String
  delays : Nat
  calls : List GhCall
  replies : List String
  deriving DecidableEq

/-- Embedding of `Bot::watch_subreddit_once`: fetch the listing (transport
or non-success status is an `Err`; a body that is not the expected JSON is
an `Err`; a missing `children` array panics on `.unwrap()`), delay and
keep the cursor on an empty page, run the per-post loop, then take the new
cursor from `data.after`, or delay and keep the old cursor when absent. -/
def watch_subreddit_once (env : IterEnv) (processed : List String)
    (after : Option String) : OnceOut :=
  match env.fetch with
  | .error _ => ⟨.err .listingTransport, processed, 0, [], []⟩
  | .ok (status, body) =>
    if !isSuccess status then
      ⟨.err (.listingStatus status), processed, 0, [], []⟩
    else
      match body with
      | .error _ => ⟨.err .listingParse, processed, 0, [], []⟩
      | .ok data =>
        match data.children with
        | none => ⟨.panicked, processed, 0, [], []⟩
        | some postings =>
          if postings.isEmpty then ⟨.ok after, processed, 1, [], []⟩
          else
            let p := processPosts env postings processed
            match p.result with
            | .ok _ =>
              match data.after with
              | some a => ⟨.ok (some a), p.processed, 0, p.calls, p.replies⟩
              | none => ⟨.ok after, p.processed, 1, p.calls, p.replies⟩
            | .err e => ⟨.err e, p.processed, 0, p.calls, p.replies⟩
            | .panicked => ⟨.panicked, p.processed, 0, p.calls, p.replies⟩

/-- How one iteration of the `loop` in `watch_subreddit` ends. -/
inductive StepOutcome
  | next (processed : List String) (after : Option String)
  | fatal
  | panicked
  deriving DecidableEq

/-- One iteration of the `loop` in `watch_subreddit`: outcome, the file
write attempted (`none` when the iteration panicked before reaching it),
the error logged by the `Err` arm, and the iteration's observations. -/
structure StepOut where
  outcome : StepOutcome
  flushed : Option (List String)
  logged : Option BotError
  processedAfter : List String
  calls : List GhCall
  replies : List String
  delays : Nat
  deriving DecidableEq

/-- Embedding of one iteration of the `loop` in `Bot::watch_subreddit`:
run `watch_subreddit_once`; on `Ok` adopt the returned cursor, on `Err`
log the error and keep the prior cursor; then unconditionally write the
processed list to the per-subreddit file, a failing write ending the loop
fatally. A panic inside the iteration never reaches the write. -/
def loopStep (env : IterEnv) (processed : List String)
    (after : Option String) : StepOut :=
  let o := watch_subreddit_once env processed after
  { outcome :=
      match o.result with
      | .panicked => .panicked
      | .ok a => if env.flushOk then .next o.processed a else .fatal
      | .err _ => if env.flushOk then .next o.processed after else .fatal
    flushed :=
      match o.result with
      | .panicked => none
      | _ => some o.processed
    logged :=
      match o.result with
      | .err e => some e
      | _ => none
    processedAfter := o.processed
    calls := o.calls
    replies := o.replies
    delays := o.delays }

/-- Observations of a whole (finite prefix of a) run of `watch_subreddit`
after the processed file has been loaded: all reply attempts in order, and
the in-memory processed list when the run stops. -/
structure RunOut where
  replies : List String
  processed : List String
  deriving DecidableEq

/-- A run of the `watch_subreddit` loop over a finite schedule of
per-iteration environments, stopping early on a fatal flush error or a
panic. -/
def runWatch : List IterEnv → List String → Option String → RunOut
  | [], processed, _ => ⟨[], processed⟩
  | env :: rest, processed, after =>
    let s := loopStep env processed after
    match s.outcome with
    | .next p a =>
      let r := runWatch rest p a
      ⟨s.replies ++ r.replies, r.processed⟩
    | .fatal => ⟨s.replies, s.processedAfter⟩
    | .panicked => ⟨s.replies, s.processedAfter⟩

/-! ### Invariants of the per-post loop and the watch loop -/

theorem processPosts_inv (env : IterEnv) :
    ∀ (posts : List RawPost) (processed : List String),
      (∀ x, x ∈ processed → x ∈ (processPosts env posts processed).processed)
    ∧ (∀ f, f ∈ (processPosts env posts processed).replies →
          f ∉ processed ∧ f ∈ (processPosts env posts processed).processed)
    ∧ (processPosts env posts processed).replies.Nodup := by
  intro posts
  induction posts with
  | nil =>
    intro processed
    simp [processPosts]
  | cons post rest ih =>
    intro processed
    obtain ⟨nameField, domField, urlField⟩ := post
    cases nameField with
    | none => simp [processPosts]
    | some f =>
      by_cases hmem : f ∈ processed
      · simpa [processPosts, hmem] using ih processed
      · have hsub : ∀ x, x ∈ processed → x ∈ processed ++ [f] := by
          intro x hx
          simp [hx]
        have hfin : f ∈ processed ++ [f] := by simp
        have hskip :
            (∀ x, x ∈ processed →
              x ∈ (processPosts env rest (processed ++ [f])).processed)
          ∧ (∀ g, g ∈ (processPosts env rest (processed ++ [f])).replies →
              g ∉ processed ∧
              g ∈ (processPosts env rest (processed ++ [f])).processed)
          ∧ (processPosts env rest (processed ++ [f])).replies.Nodup := by
          obtain ⟨h1, h2, h3⟩ := ih (processed ++ [f])
          refine ⟨fun x hx => h1 x (hsub x hx), fun g hg => ?_, h3⟩
          obtain ⟨hg1, hg2⟩ := h2 g hg
          exact ⟨fun hc => hg1 (hsub g hc), hg2⟩
        cases domField with
        | none =>
          simp only [processPosts, String.toList]
          rw [if_neg hmem]
          exact ⟨fun x hx => by simpa using hsub x hx, by simp, by simp⟩
        | some d =>
          cases urlField with
          | none =>
            simp only [processPosts, String.toList]
            rw [if_neg hmem]
            by_cases hself : listIsPrefixOf selfMarker d.data = true
            · rw [if_pos hself]
              exact hskip
            · rw [if_neg hself]
              exact ⟨fun x hx => by simpa using hsub x hx, by simp, by simp⟩
          | some u =>
            simp only [processPosts, String.toList]
            rw [if_neg hmem]
            by_cases hself : listIsPrefixOf selfMarker d.data = true
            · rw [if_pos hself]
              exact hskip
            · rw [if_neg hself]
              by_cases hgh : containsSub u.data ghFilter = true
              · rw [if_pos hgh]
                generalize check_post env.gh u = rc
                obtain ⟨res, calls⟩ := rc
                generalize respond_to env.replyResp f = rr
                cases res with
                | error e =>
                  exact ⟨fun x hx => by simpa using hsub x hx, by simp, by simp⟩
                | ok b =>
                  cases b with
                  | false => exact hskip
                  | true =>
                    cases rr with
                    | error e =>
                      refine ⟨fun x hx => by simpa using hsub x hx,
                        fun g hg => ?_, by simp⟩
                      simp only [List.mem_singleton] at hg
                      rw [hg]
                      exact ⟨hmem, by simp⟩
                    | ok uu =>
                      obtain ⟨h1, h2, h3⟩ := ih (processed ++ [f])
                      refine ⟨fun x hx => by simpa using h1 x (hsub x hx),
                        fun g hg => ?_, ?_⟩
                      · simp only [List.mem_cons] at hg
                        rcases hg with hg | hg
                        · rw [hg]
                          exact ⟨hmem, by simpa using h1 f hfin⟩
                        · obtain ⟨hg1, hg2⟩ := h2 g hg
                          exact ⟨fun hc => hg1 (hsub g hc), by simpa using hg2⟩
                      · simp only [List.nodup_cons]
                        refine ⟨fun hc => ?_, h3⟩
                        simp only [List.mem_cons] at hc
                        exact (h2 f hc).1 hfin
              · rw [if_neg hgh]
                exact hskip

theorem once_inv (env : IterEnv) (processed : List String)
    (after : Option String) :
      (∀ x, x ∈ processed →
        x ∈ (watch_subreddit_once env processed after).processed)
    ∧ (∀ f, f ∈ (watch_subreddit_once env processed after).replies →
          f ∉ processed ∧
          f ∈ (watch_subreddit_once env processed after).processed)
    ∧ (watch_subreddit_once env processed after).replies.Nodup := by
  unfold watch_subreddit_once
  cases hf : env.fetch with
  | error e => simp [hf]
  | ok sb =>
    obtain ⟨s, body⟩ := sb
    by_cases hs : isSuccess s = true
    · cases body with
      | error e => simp [hf, hs]
      | ok data =>
        cases hch : data.children with
        | none => simp [hf, hs, hch]
        | some postings =>
          by_cases hp : postings = []
          · simp [hf, hs, hch, hp]
          · obtain ⟨h1, h2, h3⟩ := processPosts_inv env postings processed
            cases hres : (processPosts env postings processed).result with
            | ok a =>
              cases hafter : data.after with
              | none => simpa [hf, hs, hch, hp, hres, hafter] using ⟨h1, h2, h3⟩
              | some a' => simpa [hf, hs, hch, hp, hres, hafter] using ⟨h1, h2, h3⟩
            | err e => simpa [hf, hs, hch, hp, hres] using ⟨h1, h2, h3⟩
            | panicked => simpa [hf, hs, hch, hp, hres] using ⟨h1, h2, h3⟩
    · simp [hf, hs]

theorem loopStep_processedAfter (env : IterEnv) (processed : List String)
    (after : Option String) :
    (loopStep env processed after).processedAfter =
      (watch_subreddit_once env processed after).processed := rfl

theorem loopStep_replies (env : IterEnv) (processed : List String)
    (after : Option String) :
    (loopStep env processed after).replies =
      (watch_subreddit_once env processed after).replies := rfl

theorem loopStep_next_eq (env : IterEnv) (processed : List String)
    (after : Option String) (p : List String) (a : Option String) :
    (loopStep env processed after).outcome = .next p a →
    p = (watch_subreddit_once env processed after).processed := by
  unfold loopStep
  cases hres : (watch_subreddit_once env processed after).result with
  | ok a' =>
    by_cases hfl : env.flushOk <;> simp [hres, hfl]
    intro h _
    exact h.symm
  | err e =>
    by_cases hfl : env.flushOk <;> simp [hres, hfl]
    intro h _
    exact h.symm
  | panicked => simp [hres]

theorem runWatch_inv :
    ∀ (envs : List IterEnv) (processed : List String) (after : Option String),
      (∀ x, x ∈ processed → x ∈ (runWatch envs processed after).processed)
    ∧ (∀ f, f ∈ (runWatch envs processed after).replies →
          f ∉ processed ∧ f ∈ (runWatch envs processed after).processed)
    ∧ (runWatch envs processed after).replies.Nodup := by
  intro envs
  induction envs with
  | nil =>
    intro processed after
    simp [runWatch]
  | cons env rest ih =>
    intro processed after
    obtain ⟨ho1, ho2, ho3⟩ := once_inv env processed after
    unfold runWatch
    cases hout : (loopStep env processed after).outcome with
    | fatal =>
      simp only [hout, loopStep_processedAfter, loopStep_replies]
      exact ⟨ho1, ho2, ho3⟩
    | panicked =>
      simp only [hout, loopStep_processedAfter, loopStep_replies]
      exact ⟨ho1, ho2, ho3⟩
    | next p a =>
      have hp : p = (watch_subreddit_once env processed after).processed :=
        loopStep_next_eq env processed after p a hout
      obtain ⟨hr1, hr2, hr3⟩ := ih p a
      simp only [hout, loopStep_processedAfter, loopStep_replies]
      refine ⟨fun x hx => hr1 x (hp ▸ ho1 x hx), fun f hf => ?_, ?_⟩
      · simp only [List.mem_append] at hf
        rcases hf with hf | hf
        · obtain ⟨hf1, hf2⟩ := ho2 f hf
          exact ⟨hf1, hr1 f (hp ▸ hf2)⟩
        · obtain ⟨hf1, hf2⟩ := hr2 f hf
          exact ⟨fun hc => hf1 (hp ▸ ho1 f hc), hf2⟩
      · rw [List.nodup_append]
        refine ⟨ho3, hr3, fun f hf hf' => ?_⟩
        exact (hr2 f hf').1 (hp ▸ (ho2 f hf).2)

/-! ### Claims -/

/-- C4 (corrected). `extract_gh_info` does not require the two returned
segments to be non-empty: if the marker substring `"github.com/"` is
absent, extraction returns no match; when the marker's first occurrence
lies at a byte offset equal to its character position (e.g. an ASCII
prefix), extraction returns the first two `'/'`-separated segments of the
text after the marker — possibly empty segments — and returns no match
exactly when no `'/'` occurs after the marker. -/
theorem claim_C4 :
    (∀ url : String, (¬ ∃ pre suf, url.toList = pre ++ ghMarker ++ suf) →
      extract_gh_info url = none)
  ∧ (∀ (url : String) (pre rest : List Char),
      url.toList = pre ++ ghMarker ++ rest →
      findByte ghMarker url.toList = some pre.length →
      extract_gh_info url =
        (if '/' ∈ rest then
          some (String.mk (rest.takeWhile (fun c => c != '/')),
            String.mk (((rest.dropWhile (fun c => c != '/')).drop 1).takeWhile
              (fun c => c != '/')))
        else none)) := by
  constructor
  · intro url h
    unfold extract_gh_info
    cases hfb : findByte ghMarker url.toList with
    | none => rfl
    | some i =>
      obtain ⟨pre, suf, hdec⟩ := findByte_some_decomp ghMarker url.toList i hfb
      exact absurd ⟨pre, suf, hdec⟩ h
  · intro url pre rest hurl hfind
    have hlen : ghMarker.length = 11 := rfl
    have hdrop : url.toList.drop (pre.length + 11) = rest := by
      rw [hurl, List.append_assoc, List.drop_append, List.drop_left' hlen]
    simp only [extract_gh_info, hfind]
    rw [hdrop]
    exact splitOnSlash_two rest

/-- C4 counterexample: after the marker, `"Org/"` has only one non-empty
segment, so the claim as stated demands "no match", but the code returns
the pair `("Org", "")` with an empty repository name. -/
theorem claim_C4_counterexample :
    extract_gh_info "https://github.com/Org/" = some ("Org", "") := by decide

/-- C4 witness: the amended characterization applied to a concrete URL. -/
theorem claim_C4_witness :
    extract_gh_info "https://github.com/Celeo/check_for_license/actions" =
      some ("Celeo", "check_for_license") := by
  rw [claim_C4.2 "https://github.com/Celeo/check_for_license/actions"
    "https://".toList "Celeo/check_for_license/actions".toList
    (by decide) (by decide)]
  decide

/-- C5 (confirmed). For a URL from which `(org, repo)` is extracted,
`check_post` first queries the repository endpoint: a non-success status
yields the `invalidProject` error carrying that status and no license
request is issued (the call trace is exactly the one repository request);
otherwise it queries the license endpoint and returns `true` exactly when
that response is non-success, `false` when it succeeds. -/
theorem claim_C5 :
    ∀ (env : GhEnv) (url org repo : String),
      extract_gh_info url = some (org, repo) →
      (∀ s1, env.repoResp org repo = .ok s1 → isSuccess s1 = false →
        check_post env url =
          (.error (.invalidProject org repo s1), [.repo org repo]))
    ∧ (∀ s1 s2, env.repoResp org repo = .ok s1 → isSuccess s1 = true →
        env.licenseResp org repo = .ok s2 →
        check_post env url =
          (.ok (!isSuccess s2), [.repo org repo, .license org repo])) := by
  intro env url org repo hex
  constructor
  · intro s1 hrep hbad
    simp [check_post, hex, hrep, hbad]
  · intro s1 s2 hrep hgood hlic
    by_cases h2 : isSuccess s2 = true <;>
      simp [check_post, hex, hrep, hgood, hlic, h2]

/-- Environment for the C5 witness: the repository endpoint answers 404. -/
def ghEnvC5 : GhEnv := ⟨fun _ _ => .ok 404, fun _ _ => .ok 200⟩

/-- C5 witness: a 404 on the repository endpoint produces the error
carrying the status, with no license request issued. -/
theorem claim_C5_witness :
    check_post ghEnvC5 "https://github.com/a/b" =
      (.error (.invalidProject "a" "b" 404), [.repo "a" "b"]) :=
  (claim_C5 ghEnvC5 "https://github.com/a/b" "a" "b" (by decide)).1 404 rfl
    (by decide)

/-- C10 (confirmed). The hosting-domain filter is plain substring
containment of `"github.com"`: an unprocessed, non-self link post is
skipped at this step (contributing no GitHub calls, no replies, no error)
exactly when its URL lacks the substring, and otherwise its processing is
exactly the `check_post`-then-`respond_to` continuation. -/
theorem claim_C10 :
    ∀ (env : IterEnv) (processed : List String) (rest : List RawPost)
      (f d u : String),
      f ∉ processed →
      listIsPrefixOf selfMarker d.toList = false →
      ((containsSub u.toList ghFilter = false →
        processPosts env (⟨some f, some d, some u⟩ :: rest) processed =
          processPosts env rest (processed ++ [f]))
      ∧ (containsSub u.toList ghFilter = true →
        processPosts env (⟨some f, some d, some u⟩ :: rest) processed =
          (match check_post env.gh u with
            | (.error e, calls) =>
              ⟨.err (.checkFailed e), processed ++ [f], calls, []⟩
            | (.ok true, calls) =>
              (match respond_to env.replyResp f with
                | .error e => ⟨.err e, processed ++ [f], calls, [f]⟩
                | .ok _ =>
                  ⟨(processPosts env rest (processed ++ [f])).result,
                    (processPosts env rest (processed ++ [f])).processed,
                    calls ++ (processPosts env rest (processed ++ [f])).calls,
                    f :: (processPosts env rest (processed ++ [f])).replies⟩)
            | (.ok false, calls) =>
              ⟨(processPosts env rest (processed ++ [f])).result,
                (processPosts env rest (processed ++ [f])).processed,
                calls ++ (processPosts env rest (processed ++ [f])).calls,
                (processPosts env rest (processed ++ [f])).replies⟩))) := by
  intro env processed rest f d u hmem hd
  simp only [String.toList] at hd
  constructor
  · intro hgh
    simp only [String.toList] at hgh
    simp only [processPosts, String.toList]
    rw [if_neg hmem, if_neg (by simp [hd]), if_neg (by simp [hgh])]
  · intro hgh
    simp only [String.toList] at hgh
    simp only [processPosts, String.toList]
    rw [if_neg hmem, if_neg (by simp [hd]), if_pos hgh]

/-- Environment for the C10 witness. -/
def envC10 : IterEnv :=
  { fetch := .ok (200, .ok ⟨some [], none⟩)
    gh := ⟨fun _ _ => .ok 200, fun _ _ => .ok 200⟩
    replyResp := fun _ => .ok 200
    flushOk := true }

/-- C10 witness: a link post whose URL lacks `"github.com"` is skipped
(only marked processed) without entering the repository check. -/
theorem claim_C10_witness :
    processPosts envC10
        [⟨some "t3_c", some "example.com", some "https://example.com"⟩] [] =
      processPosts envC10 [] ([] ++ ["t3_c"]) :=
  (claim_C10 envC10 [] [] "t3_c" "example.com" "https://example.com"
    (by decide) (by decide)).1 (by decide)

/-- C2 (corrected). A post whose URL contains `"github.com"` but from
which no (owner, name) pair can be extracted is not silently skipped:
`check_post` turns the extraction failure into a `parseUrl` error, which
the per-post pipeline surfaces as its error (aborting the remaining posts
of the page, to be logged at loop level). Only posts whose URL lacks the
substring entirely are skipped at this step as a non-error outcome. -/
theorem claim_C2 :
    ∀ (env : IterEnv) (processed : List String) (rest : List RawPost)
      (f d u : String),
      f ∉ processed →
      listIsPrefixOf selfMarker d.toList = false →
      containsSub u.toList ghFilter = true →
      extract_gh_info u = none →
      processPosts env (⟨some f, some d, some u⟩ :: rest) processed =
        ⟨.err (.checkFailed (.parseUrl u)), processed ++ [f], [], []⟩ := by
  intro env processed rest f d u hmem hd hgh hex
  simp only [String.toList] at hd hgh
  have hcp : check_post env.gh u = (.error (.parseUrl u), []) := by
    simp [check_post, hex]
  simp only [processPosts, String.toList]
  rw [if_neg hmem, if_neg (by simp [hd]), if_pos hgh, hcp]

/-- Environment for the C2 counterexample and witness: one link post whose
URL contains the filter substring but not the extraction marker. -/
def envC2 : IterEnv :=
  { fetch := .ok (200, .ok
      ⟨some [⟨some "t3_x", some "github.com", some "http://github.com"⟩],
        some "t3_x"⟩)
    gh := ⟨fun _ _ => .ok 200, fun _ _ => .ok 200⟩
    replyResp := fun _ => .ok 200
    flushOk := true }

/-- C2 counterexample: for the URL `"http://github.com"` (filter substring
present, marker `"github.com/"` absent), the iteration's result is an
error produced by the extraction failure — the claim says extraction
failure is never surfaced as a per-post pipeline error. -/
theorem claim_C2_counterexample :
    (watch_subreddit_once envC2 [] none).result =
      .err (.checkFailed (.parseUrl "http://github.com")) := by decide

/-- C2 witness: the amended statement applied to the same concrete post. -/
theorem claim_C2_witness :
    processPosts envC2
        [⟨some "t3_x", some "github.com", some "http://github.com"⟩] [] =
      ⟨.err (.checkFailed (.parseUrl "http://github.com")), ["t3_x"], [], []⟩ := by
  have h := claim_C2 envC2 [] [] "t3_x" "github.com" "http://github.com"
    (by decide) (by decide) (by decide) (by decide)
  simpa using h

/-- C1 (corrected). A checker or publisher error for one post does not
abort the watch loop, but it also does not continue with the next post of
the same page: the error propagates out of the page pass (the remaining
posts contribute nothing), and the outer loop logs it and starts its next
iteration with the cursor unchanged. -/
theorem claim_C1 :
    (∀ (env : IterEnv) (post : RawPost) (rest : List RawPost)
      (processed : List String) (e : BotError),
      (processPosts env [post] processed).result = .err e →
      processPosts env (post :: rest) processed =
        processPosts env [post] processed)
  ∧ (∀ (env : IterEnv) (processed : List String) (after : Option String)
      (e : BotError),
      (watch_subreddit_once env processed after).result = .err e →
      env.flushOk = true →
      (loopStep env processed after).outcome =
        .next (watch_subreddit_once env processed after).processed after
      ∧ (loopStep env processed after).logged = some e) := by
  constructor
  · intro env post rest processed e h
    obtain ⟨nameField, domField, urlField⟩ := post
    cases nameField with
    | none => simp [processPosts] at h
    | some f =>
      by_cases hmem : f ∈ processed
      · simp [processPosts, hmem] at h
      · cases domField with
        | none =>
          simp only [processPosts, String.toList] at h
          rw [if_neg hmem] at h
          simp at h
        | some d =>
          by_cases hself : listIsPrefixOf selfMarker d.data = true
          · simp only [processPosts, String.toList] at h
            rw [if_neg hmem, if_pos hself] at h
            simp [processPosts] at h
          · cases urlField with
            | none =>
              simp only [processPosts, String.toList] at h
              rw [if_neg hmem, if_neg hself] at h
              simp at h
            | some u =>
              by_cases hgh : containsSub u.data ghFilter = true
              · simp only [processPosts, String.toList] at h ⊢
                simp only [if_neg hmem, if_neg hself, if_pos hgh] at h ⊢
                generalize check_post env.gh u = rc at h ⊢
                obtain ⟨res, calls⟩ := rc
                cases res with
                | error e' => rfl
                | ok b =>
                  cases b with
                  | false => simp [processPosts] at h
                  | true =>
                    generalize respond_to env.replyResp f = rr at h ⊢
                    cases rr with
                    | error e' => rfl
                    | ok uu => simp [processPosts] at h
              · simp only [processPosts, String.toList] at h
                rw [if_neg hmem, if_neg hself, if_neg hgh] at h
                simp [processPosts] at h
  · intro env processed after e h hfl
    constructor <;> simp [loopStep, h, hfl]

/-- Environment for the C1 counterexample and witness: a page of two link
posts; the first post's repository check fails with a 404, the second
would produce a reply (existing repository, missing license). -/
def envC1 : IterEnv :=
  { fetch := .ok (200, .ok
      ⟨some [⟨some "t3_p1", some "github.com", some "https://github.com/a/b"⟩,
          ⟨some "t3_p2", some "github.com", some "https://github.com/c/d"⟩],
        some "t3_p2"⟩)
    gh := { repoResp := fun org _ => if org = "a" then .ok 404 else .ok 200
            licenseResp := fun _ _ => .ok 404 }
    replyResp := fun _ => .ok 200
    flushOk := true }

/-- C1 counterexample: after the checker error on the first post, the
second post of the same page is never visited — it is not marked
processed, no GitHub call is made for it, and its reply is never sent,
while the loop itself continues with the cursor unchanged. The claim's
"continues with the next post of the same page" is false. -/
theorem claim_C1_counterexample :
    (loopStep envC1 [] none).logged =
        some (.checkFailed (.invalidProject "a" "b" 404))
    ∧ (loopStep envC1 [] none).outcome = .next ["t3_p1"] none
    ∧ (loopStep envC1 [] none).replies = []
    ∧ (loopStep envC1 [] none).calls = [.repo "a" "b"] := by decide

/-- C1 witness: the amended loop-level statement applied to `envC1`. -/
theorem claim_C1_witness :
    (loopStep envC1 [] none).outcome =
        .next (watch_subreddit_once envC1 [] none).processed none
    ∧ (loopStep envC1 [] none).logged =
        some (.checkFailed (.invalidProject "a" "b" 404)) :=
  claim_C1.2 envC1 [] none (.checkFailed (.invalidProject "a" "b" 404))
    (by decide) rfl

/-- C3 (corrected). A listing response missing a core field is not
surfaced as a logged loop-level error: each `.unwrap()` panics and
crashes the program whenever it is actually executed — always for a
missing `children` array; for a missing post `name` whenever the pass
reaches that post; for a missing `domain` when the post's name is not
already processed; and for a missing `url` when additionally the post is
not a self post. A panicking iteration logs nothing and never reaches the
flush. The two unwraps that are skipped — `domain` of an
already-processed post, `url` of a self post — cause no panic: those
posts are skipped normally. -/
theorem claim_C3 :
    (∀ (env : IterEnv) (processed : List String) (after : Option String)
      (s : Nat) (l : Listing),
      env.fetch = .ok (s, .ok l) → isSuccess s = true → l.children = none →
      (watch_subreddit_once env processed after).result = .panicked
      ∧ (loopStep env processed after).outcome = .panicked
      ∧ (loopStep env processed after).flushed = none)
  ∧ (∀ (env : IterEnv) (rest : List RawPost) (processed : List String)
      (domField urlField : Option String),
      (processPosts env (⟨none, domField, urlField⟩ :: rest) processed).result =
        .panicked)
  ∧ (∀ (env : IterEnv) (rest : List RawPost) (processed : List String)
      (f : String) (urlField : Option String),
      f ∉ processed →
      (processPosts env (⟨some f, none, urlField⟩ :: rest) processed).result =
        .panicked)
  ∧ (∀ (env : IterEnv) (rest : List RawPost) (processed : List String)
      (f d : String),
      f ∉ processed → listIsPrefixOf selfMarker d.toList = false →
      (processPosts env (⟨some f, some d, none⟩ :: rest) processed).result =
        .panicked)
  ∧ (∀ (env : IterEnv) (processed : List String) (after : Option String),
      (watch_subreddit_once env processed after).result = .panicked →
      (loopStep env processed after).outcome = .panicked
      ∧ (loopStep env processed after).flushed = none
      ∧ (loopStep env processed after).logged = none)
  ∧ (∀ (env : IterEnv) (rest : List RawPost) (processed : List String)
      (f : String) (urlField : Option String),
      f ∈ processed →
      processPosts env (⟨some f, none, urlField⟩ :: rest) processed =
        processPosts env rest processed)
  ∧ (∀ (env : IterEnv) (rest : List RawPost) (processed : List String)
      (f d : String),
      f ∉ processed → listIsPrefixOf selfMarker d.toList = true →
      processPosts env (⟨some f, some d, none⟩ :: rest) processed =
        processPosts env rest (processed ++ [f])) := by
  refine ⟨?_, ?_, ?_, ?_, ?_, ?_, ?_⟩
  · intro env processed after s l hf hs hch
    have ho : (watch_subreddit_once env processed after).result = .panicked := by
      simp [watch_subreddit_once, hf, hs, hch]
    refine ⟨ho, ?_, ?_⟩ <;> simp [loopStep, ho]
  · intro env rest processed domField urlField
    simp [processPosts]
  · intro env rest processed f urlField hmem
    simp [processPosts, hmem]
  · intro env rest processed f d hmem hd
    simp only [String.toList] at hd
    simp only [processPosts, String.toList]
    rw [if_neg hmem, if_neg (by simp [hd])]
  · intro env processed after h
    refine ⟨?_, ?_, ?_⟩ <;> simp [loopStep, h]
  · intro env rest processed f urlField hmem
    simp [processPosts, hmem]
  · intro env rest processed f d hmem hself
    simp only [String.toList] at hself
    simp only [processPosts, String.toList]
    rw [if_neg hmem, if_pos hself]

/-- Environment for the C3 counterexample and witness: a successful fetch
whose JSON body has no `children` array. -/
def envC3 : IterEnv :=
  { fetch := .ok (200, .ok ⟨none, none⟩)
    gh := ⟨fun _ _ => .ok 200, fun _ _ => .ok 200⟩
    replyResp := fun _ => .ok 200
    flushOk := true }

/-- C3 counterexample: on a body without `children`, the iteration panics
(the program crashes); no error is logged and no flush happens — the claim
says this is a logged loop-level error with the loop continuing. -/
theorem claim_C3_counterexample :
    (loopStep envC3 [] none).outcome = .panicked
    ∧ (loopStep envC3 [] none).logged = none
    ∧ (loopStep envC3 [] none).flushed = none := by decide

/-- C3 witness: the amended statement applied to `envC3`. -/
theorem claim_C3_witness :
    (watch_subreddit_once envC3 [] none).result = .panicked
    ∧ (loopStep envC3 [] none).outcome = .panicked
    ∧ (loopStep envC3 [] none).flushed = none :=
  claim_C3.1 envC3 [] none 200 ⟨none, none⟩ rfl (by decide) rfl

/-- C8 (corrected). The "exactly one delay, cursor unchanged" behavior
holds for an empty page unconditionally, and for an absent trailing
`after` token only when the per-post pass completes without a propagated
error: an iteration that ends in a per-post error performs no delay (and
the outer loop keeps the cursor). -/
theorem claim_C8 :
    (∀ (env : IterEnv) (processed : List String) (after : Option String)
      (s : Nat) (l : Listing),
      env.fetch = .ok (s, .ok l) → isSuccess s = true → l.children = some [] →
      watch_subreddit_once env processed after =
        ⟨.ok after, processed, 1, [], []⟩)
  ∧ (∀ (env : IterEnv) (processed : List String) (after : Option String)
      (s : Nat) (l : Listing) (postings : List RawPost),
      env.fetch = .ok (s, .ok l) → isSuccess s = true →
      l.children = some postings → postings ≠ [] → l.after = none →
      (processPosts env postings processed).result = .ok () →
      (watch_subreddit_once env processed after).result = .ok after
      ∧ (watch_subreddit_once env processed after).delays = 1) := by
  constructor
  · intro env processed after s l hf hs hch
    simp [watch_subreddit_once, hf, hs, hch]
  · intro env processed after s l postings hf hs hch hne hafter hres
    constructor <;> simp [watch_subreddit_once, hf, hs, hch, hne, hafter, hres]

/-- Environment for the C8 counterexample: a page with one link post whose
repository check fails, in a response with no trailing `after` token. -/
def envC8 : IterEnv :=
  { fetch := .ok (200, .ok
      ⟨some [⟨some "t3_q", some "github.com", some "https://github.com/a/b"⟩],
        none⟩)
    gh := ⟨fun _ _ => .ok 404, fun _ _ => .ok 404⟩
    replyResp := fun _ => .ok 200
    flushOk := true }

/-- C8 counterexample: this iteration's response carries no trailing
pagination token, yet zero delays are invoked, because the per-post error
aborts the pass before the cursor/delay logic — the claim demands exactly
one delay in every such iteration. -/
theorem claim_C8_counterexample :
    envC8.fetch = .ok (200, .ok
      ⟨some [⟨some "t3_q", some "github.com", some "https://github.com/a/b"⟩],
        none⟩)
    ∧ (watch_subreddit_once envC8 [] none).delays = 0
    ∧ (watch_subreddit_once envC8 [] none).result =
        .err (.checkFailed (.invalidProject "a" "b" 404)) :=
  ⟨rfl, by decide, by decide⟩

/-- Environment for the C8 witness: an empty page (with an `after` token,
which the empty-page early return never reads). -/
def envC8w : IterEnv :=
  { fetch := .ok (200, .ok ⟨some [], some "t3_tok"⟩)
    gh := ⟨fun _ _ => .ok 200, fun _ _ => .ok 200⟩
    replyResp := fun _ => .ok 200
    flushOk := true }

/-- C8 witness: an empty page yields exactly one delay and an unchanged
cursor. -/
theorem claim_C8_witness :
    watch_subreddit_once envC8w ["t3_z"] (some "cur") =
      ⟨.ok (some "cur"), ["t3_z"], 1, [], []⟩ :=
  claim_C8.1 envC8w ["t3_z"] (some "cur") 200 ⟨some [], some "t3_tok"⟩ rfl
    (by decide) rfl

/-- C9 (confirmed). Every iteration that does not panic — including those
that ended in a handled, logged error — attempts exactly the flush of the
post-iteration processed list, and a failing flush ends the watch loop
fatally instead of being swallowed. -/
theorem claim_C9 :
    ∀ (env : IterEnv) (processed : List String) (after : Option String),
      (watch_subreddit_once env processed after).result ≠ .panicked →
      (loopStep env processed after).flushed =
        some (watch_subreddit_once env processed after).processed
      ∧ (env.flushOk = false → (loopStep env processed after).outcome = .fatal) := by
  intro env processed after h
  cases hres : (watch_subreddit_once env processed after).result with
  | panicked => exact absurd hres h
  | ok a =>
    constructor
    · simp [loopStep, hres]
    · intro hfl
      simp [loopStep, hres, hfl]
  | err e =>
    constructor
    · simp [loopStep, hres]
    · intro hfl
      simp [loopStep, hres, hfl]

/-- Environment for the C9 witness: the listing fetch fails (a handled,
logged error) and the file write fails. -/
def envC9 : IterEnv :=
  { fetch := .error ()
    gh := ⟨fun _ _ => .ok 200, fun _ _ => .ok 200⟩
    replyResp := fun _ => .ok 200
    flushOk := false }

/-- C9 witness: after a logged fetch error, the flush is still attempted,
and its failure is fatal. -/
theorem claim_C9_witness :
    (loopStep envC9 [] none).flushed = some []
    ∧ (loopStep envC9 [] none).outcome = .fatal := by
  have h := claim_C9 envC9 [] none (by decide)
  exact ⟨h.1.trans (by decide), h.2 rfl⟩

/-- C6 (confirmed). Across a whole run, each post identifier receives at
most one reply attempt (the attempt list has no duplicates, failed
attempts included), and every identifier that was ever the target of a
reply attempt is in the processed set — it was added before the attempt
and never removed. -/
theorem claim_C6 :
    ∀ (envs : List IterEnv) (processed : List String) (after : Option String),
      (runWatch envs processed after).replies.Nodup
    ∧ ∀ f, f ∈ (runWatch envs processed after).replies →
        f ∈ (runWatch envs processed after).processed := by
  intro envs processed after
  obtain ⟨h1, h2, h3⟩ := runWatch_inv envs processed after
  exact ⟨h3, fun f hf => (h2 f hf).2⟩

/-- Environment for the C6 witness: one post that receives a reply
(existing repository, missing license). -/
def envC6 : IterEnv :=
  { fetch := .ok (200, .ok
      ⟨some [⟨some "t3_b", some "github.com", some "https://github.com/x/y"⟩],
        some "t3_b"⟩)
    gh := ⟨fun _ _ => .ok 200, fun _ _ => .ok 404⟩
    replyResp := fun _ => .ok 200
    flushOk := true }

/-- C6 witness: in a run with one actual reply, the attempt list is
duplicate-free and the replied post is in the processed set. -/
theorem claim_C6_witness :
    (runWatch [envC6] [] none).replies.Nodup
    ∧ "t3_b" ∈ (runWatch [envC6] [] none).processed :=
  ⟨(claim_C6 [envC6] [] none).1,
    (claim_C6 [envC6] [] none).2 "t3_b" (by decide)⟩

/-- C7 (confirmed). A post whose identifier is already in the processed
set contributes nothing: the per-post pipeline for it is the identity on
state, with no GitHub calls and no replies; and run-wide, an identifier in
the initial processed set (e.g. loaded from the persisted file after a
restart) is never the target of any reply attempt. -/
theorem claim_C7 :
    (∀ (env : IterEnv) (processed : List String) (rest : List RawPost)
      (f : String) (domField urlField : Option String),
      f ∈ processed →
      processPosts env (⟨some f, domField, urlField⟩ :: rest) processed =
        processPosts env rest processed)
  ∧ (∀ (envs : List IterEnv) (processed : List String) (after : Option String)
      (f : String),
      f ∈ processed → f ∉ (runWatch envs processed after).replies) := by
  constructor
  · intro env processed rest f domField urlField hmem
    simp [processPosts, hmem]
  · intro envs processed after f hmem hc
    exact ((runWatch_inv envs processed after).2.1 f hc).1 hmem

/-- Environment for the C7 witness: the page re-serves a post that is in
the persisted processed set; the GitHub oracles would classify it as
missing a license, so a reply would occur were it not deduplicated. -/
def envC7 : IterEnv :=
  { fetch := .ok (200, .ok
      ⟨some [⟨some "t3_a", some "github.com", some "https://github.com/x/y"⟩],
        some "t3_a"⟩)
    gh := ⟨fun _ _ => .ok 200, fun _ _ => .ok 404⟩
    replyResp := fun _ => .ok 200
    flushOk := true }

/-- C7 witness: an identifier loaded in the initial processed set is never
replied to, even when the page re-serves it. -/
theorem claim_C7_witness :
    "t3_a" ∉ (runWatch [envC7] ["t3_a"] none).replies :=
  claim_C7.2 [envC7] ["t3_a"] none "t3_a" (by decide)

end CheckForLicense
